import Mathlib

/-!
Verification of the forecasting core of `forecasting-financial-inclusion`
(`src/forecasting_utils.py`) against its specification.

Shallow embedding conventions:
* numeric values are embedded as `ℚ` (the Python code works in floats, but
  every claim under scrutiny involves only exact rational arithmetic, except
  `np.sqrt`, embedded as `Real.sqrt`);
* timestamps are embedded as `ℤ` day numbers; the calendar granularity of a
  pandas frequency string ('A'/'Q'/'M') is abstracted to a fixed positive
  day step — each of the three frequencies advances the date by a positive
  number of days, which is the only property the code relies on;
* pandas `DataFrame`s are embedded as lists of rows, columns addressed
  positionally (forecast tables handled by the code are positionally
  aligned RangeIndex frames);
* Python `dict`s are embedded as association lists with insertion-ordered
  upsert, mirroring dict assignment semantics;
* IEEE special values arising from division by zero inside
  `validate_forecast` are embedded by the inductive type `ExtVal`
  (finite / +∞ / −∞ / NaN) with the IEEE rules for the operations the code
  performs (division, absolute value, sum, scaling).
-/

/-- One row of a forecast table: columns `date`, `forecast`, `lower_ci`,
`upper_ci` as produced by `generate_forecast`. -/
structure ForecastRow where
  date : ℤ
  forecast : ℚ
  lower_ci : ℚ
  upper_ci : ℚ
  deriving DecidableEq, Repr, Inhabited

/-- Resampling frequency ('A' = annual, 'Q' = quarterly, 'M' = monthly). -/
inductive Freq where
  | A | Q | M
  deriving DecidableEq, Repr

/-- Number of days one period of the frequency advances the date.  The exact
calendar lengths are abstracted to a fixed positive step; the code only
relies on `pd.date_range` producing strictly increasing dates. -/
def Freq.stepDays : Freq → ℤ
  | .A => 365
  | .Q => 91
  | .M => 30

/-- A fitted model, as consumed by `generate_forecast`.  The Python code
dispatches by duck typing (`hasattr(model, 'predict') and
hasattr(model, 'make_future_dataframe')` selects the Prophet branch); here
the two shapes are an explicit sum.
* `arima` carries the last observed date, the library's point-forecast
  function (`model.forecast(steps)`) and confidence-interval function
  (`model.get_forecast(steps).conf_int()`, column 0 = lower, 1 = upper),
  both abstract functions of the requested number of steps;
* `prophet` carries the training history dates and the library's `predict`
  output `(yhat, yhat_lower, yhat_upper)` as an abstract function of the
  row date. -/
inductive FittedModel where
  | arima (lastDate : ℤ) (forecastFn : ℕ → List ℚ) (confIntFn : ℕ → List (ℚ × ℚ))
  | prophet (history : List ℤ) (predictFn : ℤ → ℚ × ℚ × ℚ)

/-- `pd.date_range(start=last_date, periods=periods+1, freq=freq)[1:]`:
the `periods` dates strictly after `last`, each one step further. -/
def dateRange (last : ℤ) (periods : ℕ) (freq : Freq) : List ℤ :=
  (List.range periods).map (fun i : ℕ => last + ((i : ℤ) + 1) * freq.stepDays)

/-- Prophet's `make_future_dataframe(periods=periods, freq=freq)` with the
default `include_history=True`: the training dates followed by `periods`
future dates extending the last training date. -/
def make_future_dataframe (history : List ℤ) (periods : ℕ) (freq : Freq) : List ℤ :=
  match history.getLast? with
  | some last => history ++ dateRange last periods freq
  | none => history

/-- Positional assembly of the ARIMA-branch forecast DataFrame from its
`date`, `forecast` and `(lower_ci, upper_ci)` columns. -/
def zip3Rows : List ℤ → List ℚ → List (ℚ × ℚ) → List ForecastRow
  | d :: ds, f :: fs, c :: cs => ⟨d, f, c.1, c.2⟩ :: zip3Rows ds fs cs
  | _, _, _ => []

/-- `generate_forecast(model_results, periods, freq)`: Prophet branch returns
the `predict` output over the whole future dataframe (history included);
ARIMA branch builds the table from `periods` dates extending the last
observed date, the point forecasts, and the confidence intervals. -/
def generate_forecast (m : FittedModel) (periods : ℕ) (freq : Freq) : List ForecastRow :=
  match m with
  | .prophet history predictFn =>
    (make_future_dataframe history periods freq).map
      (fun d => ⟨d, (predictFn d).1, (predictFn d).2.1, (predictFn d).2.2⟩)
  | .arima lastDate forecastFn confIntFn =>
    zip3Rows (dateRange lastDate periods freq) (forecastFn periods) (confIntFn periods)

/-- The body of the `generate_scenarios` loop: multiply the `forecast`,
`lower_ci` and `upper_ci` columns by the multiplier (the `date` column is
copied unchanged). -/
def scaleForecast (f : List ForecastRow) (mult : ℚ) : List ForecastRow :=
  f.map (fun r => { r with forecast := r.forecast * mult,
                           lower_ci := r.lower_ci * mult,
                           upper_ci := r.upper_ci * mult })

/-- Python dict assignment `d[k] = v` on an insertion-ordered association
list: replace the value in place when the key exists, append otherwise. -/
def dictUpsert (d : List (String × α)) (k : String) (v : α) : List (String × α) :=
  if d.any (fun p => p.1 = k) then
    d.map (fun p => if p.1 = k then (k, v) else p)
  else
    d ++ [(k, v)]

/-- Python dict lookup `d[k]` (first — and for a dict, only — binding). -/
def dictGet (d : List (String × α)) (k : String) : Option α :=
  match d with
  | [] => none
  | p :: rest => if p.1 = k then some p.2 else dictGet rest k

/-- `generate_scenarios(base_forecast, scenario_adjustments)`: start from
`{'base': base_forecast}` and assign each adjusted scenario in mapping
order.  There is no validation of the multipliers. -/
def generate_scenarios (base : List ForecastRow) (adjs : List (String × ℚ)) :
    List (String × List ForecastRow) :=
  adjs.foldl (fun acc nm => dictUpsert acc nm.1 (scaleForecast base nm.2)) [("base", base)]

/-- `np.minimum.reduce` over a nonempty list (the empty case, which numpy
rejects, is given the junk value 0 and never reached by the code). -/
def reduceMin (l : List ℚ) : ℚ :=
  match l with
  | [] => 0
  | x :: xs => xs.foldl min x

/-- `np.maximum.reduce` over a nonempty list. -/
def reduceMax (l : List ℚ) : ℚ :=
  match l with
  | [] => 0
  | x :: xs => xs.foldl max x

/-- The combination step of `ensemble_forecast`: dates come from the first
forecast; the point forecast at each position is
`sum(forecasts[i]['forecast'] * weights[i])`; the bounds are the
elementwise `np.minimum.reduce` / `np.maximum.reduce` of the models'
bounds.  Columns are combined positionally over the index range of the
first forecast, which matches the code on aligned (equal-length) inputs. -/
def combineForecasts (forecasts : List (List ForecastRow)) (weights : List ℚ) :
    List ForecastRow :=
  match forecasts with
  | [] => []
  | f0 :: rest =>
    (List.range f0.length).map (fun j =>
      { date := (f0.getD j default).date
        forecast := ((f0 :: rest).zip weights).foldl
          (fun acc fw => acc + (fw.1.getD j default).forecast * fw.2) 0
        lower_ci := reduceMin (((f0 :: rest)).map (fun f => (f.getD j default).lower_ci))
        upper_ci := reduceMax (((f0 :: rest)).map (fun f => (f.getD j default).upper_ci)) })

/-- `ensemble_forecast(model_results_list, periods, weights)`: empty model
list or a weight-count mismatch returns an empty table; omitted weights
default to equal weights `1/len(models)`; each model's forecast is
generated at the default frequency 'A', empty forecasts are dropped, and
the survivors are combined. -/
def ensemble_forecast (models : List FittedModel) (periods : ℕ)
    (weights : Option (List ℚ)) : List ForecastRow :=
  match models with
  | [] => []
  | _ :: _ =>
    let ws := match weights with
      | none => List.replicate models.length ((1 : ℚ) / (models.length : ℚ))
      | some w => w
    if ws.length ≠ models.length then []
    else
      let forecasts := (models.map (fun m => generate_forecast m periods .A)).filter
        (fun f => ¬ f.isEmpty)
      if forecasts.isEmpty then [] else combineForecasts forecasts ws

/-- IEEE-754 special values as they arise in `validate_forecast`: a finite
value, +∞, −∞, or NaN. -/
inductive ExtVal where
  | fin (q : ℚ) | pinf | ninf | nan
  deriving DecidableEq, Repr

/-- IEEE division of two finite values (`errors / actual` elementwise):
finite when the divisor is nonzero, signed infinity for `x/0` with
`x ≠ 0`, NaN for `0/0`. -/
def extDiv (a b : ℚ) : ExtVal :=
  if b ≠ 0 then .fin (a / b)
  else if 0 < a then .pinf
  else if a < 0 then .ninf
  else .nan

/-- IEEE absolute value (`np.abs`). -/
def extAbs : ExtVal → ExtVal
  | .fin q => .fin |q|
  | .pinf => .pinf
  | .ninf => .pinf
  | .nan => .nan

/-- IEEE addition: NaN absorbs, ∞ + (−∞) is NaN, infinities absorb finite
values. -/
def extAdd : ExtVal → ExtVal → ExtVal
  | .nan, _ => .nan
  | _, .nan => .nan
  | .pinf, .ninf => .nan
  | .ninf, .pinf => .nan
  | .pinf, _ => .pinf
  | _, .pinf => .pinf
  | .ninf, _ => .ninf
  | _, .ninf => .ninf
  | .fin a, .fin b => .fin (a + b)

/-- IEEE sum of a list (as inside `np.mean`). -/
def extSum : List ExtVal → ExtVal
  | [] => .fin 0
  | x :: xs => extAdd x (extSum xs)

/-- IEEE multiplication by a finite constant (division by the length inside
`np.mean`, and the final `* 100`): `0 × ∞` is NaN. -/
def extScale (c : ℚ) : ExtVal → ExtVal
  | .fin q => .fin (c * q)
  | .pinf => if 0 < c then .pinf else if c < 0 then .ninf else .nan
  | .ninf => if 0 < c then .ninf else if c < 0 then .pinf else .nan
  | .nan => .nan

/-- `np.mean` over IEEE values: sum divided by the length (`NaN` on an
empty array). -/
def extMean (l : List ExtVal) : ExtVal :=
  if l.length = 0 then .nan else extScale ((l.length : ℚ)⁻¹) (extSum l)

/-- `errors = actual - predicted` (elementwise on aligned series). -/
def errorsOf (actual predicted : List ℚ) : List ℚ :=
  List.zipWith (· - ·) actual predicted

/-- `np.mean(np.abs(errors))`.  The inputs are finite, so the mean is
computed directly in `ℚ` (stated for nonempty inputs; `np.mean` of an
empty array would be NaN, while `ℚ` division by zero gives 0). -/
def mae (actual predicted : List ℚ) : ℚ :=
  ((errorsOf actual predicted).map (fun e => |e|)).sum /
    ((errorsOf actual predicted).length : ℚ)

/-- `np.mean(errors ** 2)`. -/
def mse (actual predicted : List ℚ) : ℚ :=
  ((errorsOf actual predicted).map (fun e => e ^ 2)).sum /
    ((errorsOf actual predicted).length : ℚ)

/-- `np.sqrt(np.mean(errors ** 2))`. -/
noncomputable def rmse (actual predicted : List ℚ) : ℝ :=
  Real.sqrt (mse actual predicted)

/-- The elementwise terms `np.abs(errors / actual)` of the MAPE, carried in
IEEE arithmetic because `actual` may contain zeros. -/
def mapeTerms (actual predicted : List ℚ) : List ExtVal :=
  List.zipWith (fun e av => extAbs (extDiv e av)) (errorsOf actual predicted) actual

/-- `np.mean(np.abs(errors / actual)) * 100`. -/
def mape (actual predicted : List ℚ) : ExtVal :=
  extScale 100 (extMean (mapeTerms actual predicted))

/-- `validate_forecast(actual, predicted)`: the metrics dictionary
`{'MAE': …, 'RMSE': …, 'MAPE': …}`. -/
noncomputable def validate_forecast (actual predicted : List ℚ) : ℚ × ℝ × ExtVal :=
  (mae actual predicted, rmse actual predicted, mape actual predicted)

/-- One row of the raw observation table consumed by
`prepare_time_series`. -/
structure Observation where
  indicator_code : String
  observation_date : ℤ
  value_numeric : Option ℚ
  deriving DecidableEq, Repr

/-- `prepare_time_series(df, indicator_code)`: filter to the indicator,
drop null values, sort by date (pandas `sort_values`; tie order is
irrelevant to the claims, embedded as an insertion sort), and return the
`(date, value)` series.  No matching rows yields an empty series — the
code raises nothing. -/
def prepare_time_series (df : List Observation) (indicator_code : String) :
    List (ℤ × ℚ) :=
  let ts_data := df.filter (fun o => o.indicator_code == indicator_code)
  let ts_data := ts_data.filter (fun o => o.value_numeric.isSome)
  let ts_data := List.insertionSort
    (fun a b => a.observation_date ≤ b.observation_date) ts_data
  ts_data.map (fun o => (o.observation_date, o.value_numeric.getD 0))

/-- Day number of a calendar date (days-from-civil algorithm); used to embed
the concrete pandas timestamps of the event-indicator example. -/
def daysFromCivil (y m d : ℤ) : ℤ :=
  let y' := if m ≤ 2 then y - 1 else y
  let era := (if 0 ≤ y' then y' else y' - 399) / 400
  let yoe := y' - era * 400
  let mp := (m + 9) % 12
  let doy := (153 * mp + 2) / 5 + d - 1
  let doe := yoe * 365 + yoe / 4 - yoe / 100 + doy
  era * 146097 + doe - 719468

/-- `create_event_indicators(dates, event_dates, lag_months)`: one binary
column per event, named `event_<name>`, with entry 1 where the timestamp
lies in the inclusive window `[event_date, event_date + lag_months*30
days]` and 0 otherwise. -/
def create_event_indicators (dates : List ℤ) (event_dates : List (String × ℤ))
    (lag_months : ℤ) : List (String × List ℕ) :=
  event_dates.map (fun ev =>
    ("event_" ++ ev.1,
      dates.map (fun t => if ev.2 ≤ t ∧ t ≤ ev.2 + lag_months * 30 then 1 else 0)))

/-- The test's target dates: `pd.date_range('2020-01-01', periods=12,
freq='M')`, i.e. the twelve month-end dates of 2020. -/
def exampleDates2020 : List ℤ :=
  [daysFromCivil 2020 1 31, daysFromCivil 2020 2 29, daysFromCivil 2020 3 31,
   daysFromCivil 2020 4 30, daysFromCivil 2020 5 31, daysFromCivil 2020 6 30,
   daysFromCivil 2020 7 31, daysFromCivil 2020 8 31, daysFromCivil 2020 9 30,
   daysFromCivil 2020 10 31, daysFromCivil 2020 11 30, daysFromCivil 2020 12 31]

/-- The test's events: telebirr launch 2021-05-01 and mpesa entry
2023-01-01. -/
def exampleEvents : List (String × ℤ) :=
  [("telebirr", daysFromCivil 2021 5 1), ("mpesa", daysFromCivil 2023 1 1)]

/-- The spec's first ensemble example model: point forecasts `[50, 55, 60]`
with surrounding confidence intervals. -/
def c2ModelA : FittedModel :=
  .arima 0 (fun _ => [50, 55, 60]) (fun _ => [(48, 52), (53, 57), (58, 62)])

/-- The spec's second ensemble example model: point forecasts
`[52, 57, 62]`. -/
def c2ModelB : FittedModel :=
  .arima 0 (fun _ => [52, 57, 62]) (fun _ => [(49, 54), (54, 59), (59, 64)])

/-! ## Generic list helpers -/

/-- `getD` of a mapped list, inside bounds. -/
theorem list_getD_map {α β : Type} (l : List α) (f : α → β) (k : ℕ) (d : α) (d' : β)
    (h : k < l.length) : (l.map f).getD k d' = f (l.getD k d) := by
  induction l generalizing k with
  | nil => simp at h
  | cons x xs ih =>
    cases k with
    | zero => simp
    | succ k =>
      simp only [List.map_cons, List.getD_cons_succ]
      exact ih k (by simpa using Nat.lt_of_succ_lt_succ h)

/-- Reading every position of a list back with `getD` reproduces the list. -/
theorem list_map_getD_range {α : Type} (l : List α) (d : α) :
    (List.range l.length).map (fun j => l.getD j d) = l := by
  induction l with
  | nil => simp
  | cons x xs ih =>
    rw [List.length_cons, List.range_succ_eq_map]
    simp only [List.map_cons, List.getD_cons_zero, List.map_map]
    have hc : ((fun j => (x :: xs).getD j d) ∘ Nat.succ) = fun j => xs.getD j d := by
      funext j; simp [List.getD_cons_succ]
    rw [hc, ih]

/-- `getD` of a `zipWith`, inside bounds. -/
theorem list_getD_zipWith {α β γ : Type} (f : α → β → γ) (as : List α) (bs : List β)
    (i : ℕ) (da : α) (db : β) (dc : γ) (ha : i < as.length) (hb : i < bs.length) :
    (List.zipWith f as bs).getD i dc = f (as.getD i da) (bs.getD i db) := by
  induction as generalizing bs i with
  | nil => simp at ha
  | cons a as ih =>
    cases bs with
    | nil => simp at hb
    | cons b bs =>
      cases i with
      | zero => simp
      | succ i =>
        simp only [List.zipWith_cons_cons, List.getD_cons_succ]
        exact ih bs i (by simpa using Nat.lt_of_succ_lt_succ ha)
          (by simpa using Nat.lt_of_succ_lt_succ hb)

/-! ## Forecast-table helpers -/

/-- The positional DataFrame assembly has as many rows as the (shortest)
column; the date column is the shortest here. -/
theorem zip3Rows_length (ds : List ℤ) (fs : List ℚ) (cs : List (ℚ × ℚ))
    (h1 : ds.length ≤ fs.length) (h2 : ds.length ≤ cs.length) :
    (zip3Rows ds fs cs).length = ds.length := by
  induction ds generalizing fs cs with
  | nil => cases fs <;> cases cs <;> simp [zip3Rows]
  | cons d ds ih =>
    cases fs with
    | nil => simp at h1
    | cons f fs =>
      cases cs with
      | nil => simp at h2
      | cons c cs =>
        simp only [zip3Rows, List.length_cons]
        rw [ih fs cs (by simpa using h1) (by simpa using h2)]

/-- The date column of the assembled table is exactly the supplied dates. -/
theorem zip3Rows_map_date (ds : List ℤ) (fs : List ℚ) (cs : List (ℚ × ℚ))
    (h1 : ds.length ≤ fs.length) (h2 : ds.length ≤ cs.length) :
    (zip3Rows ds fs cs).map ForecastRow.date = ds := by
  induction ds generalizing fs cs with
  | nil => cases fs <;> cases cs <;> simp [zip3Rows]
  | cons d ds ih =>
    cases fs with
    | nil => simp at h1
    | cons f fs =>
      cases cs with
      | nil => simp at h2
      | cons c cs =>
        simp only [zip3Rows, List.map_cons]
        rw [ih fs cs (by simpa using h1) (by simpa using h2)]

/-- When the interval column brackets the point column, every assembled row
is bracketed. -/
theorem zip3Rows_bounds {fs : List ℚ} {cs : List (ℚ × ℚ)}
    (h : List.Forall₂ (fun fc ci => ci.1 ≤ fc ∧ fc ≤ ci.2) fs cs) :
    ∀ (ds : List ℤ), ∀ r ∈ zip3Rows ds fs cs,
      r.lower_ci ≤ r.forecast ∧ r.forecast ≤ r.upper_ci := by
  induction h with
  | nil => intro ds r hr; cases ds <;> simp [zip3Rows] at hr
  | @cons f c fs cs hfc _ ih =>
    intro ds r hr
    cases ds with
    | nil => simp [zip3Rows] at hr
    | cons d ds =>
      simp only [zip3Rows, List.mem_cons] at hr
      rcases hr with rfl | hr
      · exact hfc
      · exact ih ds r hr

/-- Every frequency advances the date by a positive number of days. -/
theorem stepDays_pos (freq : Freq) : 0 < freq.stepDays := by
  cases freq <;> decide

theorem dateRange_length (last : ℤ) (periods : ℕ) (freq : Freq) :
    (dateRange last periods freq).length = periods := by
  unfold dateRange
  rw [List.length_map, List.length_range]

/-- The generated future dates are strictly increasing. -/
theorem dateRange_pairwise (last : ℤ) (periods : ℕ) (freq : Freq) :
    (dateRange last periods freq).Pairwise (· < ·) := by
  unfold dateRange
  refine (List.pairwise_lt_range periods).map _ ?_
  intro a b hab
  have hs := stepDays_pos freq
  have : ((a : ℤ) + 1) * freq.stepDays < ((b : ℤ) + 1) * freq.stepDays := by
    apply mul_lt_mul_of_pos_right _ hs
    exact_mod_cast by omega
  omega

/-- Row count of the prophet-branch future dataframe: all the history plus
the requested horizon. -/
theorem make_future_dataframe_length (history : List ℤ) (periods : ℕ) (freq : Freq)
    (h : history ≠ []) :
    (make_future_dataframe history periods freq).length = history.length + periods := by
  unfold make_future_dataframe
  cases hl : history.getLast? with
  | none => exact absurd (List.getLast?_eq_none_iff.mp hl) h
  | some last => simp [dateRange_length]

/-! ## Claim C1 -/

/-- Every member of a strictly sorted list is at most its last element. -/
theorem mem_le_getLast (l : List ℤ) (hl : l.Pairwise (· < ·)) (x last : ℤ)
    (hx : x ∈ l) (h : l.getLast? = some last) : x ≤ last := by
  induction l generalizing x with
  | nil => simp at hx
  | cons a as ih =>
    cases as with
    | nil =>
      simp at hx h
      omega
    | cons b bs =>
      rw [List.getLast?_cons_cons] at h
      rcases List.mem_cons.mp hx with rfl | hx'
      · have hopt : last ∈ (b :: bs).getLast? := Option.mem_def.mpr h
        obtain ⟨hne', heq⟩ := List.mem_getLast?_eq_getLast hopt
        have hmem : last ∈ b :: bs := heq ▸ List.getLast_mem hne'
        have := (List.pairwise_cons.mp hl).1 last hmem
        omega
      · exact ih (List.pairwise_cons.mp hl).2 x hx' h

/-- A strictly sorted training history extended by the future dates stays
strictly sorted: every history date is at most the last one, and every
generated future date lies strictly beyond it. -/
theorem make_future_pairwise (history : List ℤ) (periods : ℕ) (freq : Freq)
    (hs : history.Pairwise (· < ·)) :
    (make_future_dataframe history periods freq).Pairwise (· < ·) := by
  unfold make_future_dataframe
  cases hl : history.getLast? with
  | none => exact hs
  | some last =>
    rw [List.pairwise_append]
    refine ⟨hs, dateRange_pairwise _ _ _, ?_⟩
    intro a ha b hb
    have h1 : a ≤ last := mem_le_getLast history hs a last ha hl
    have h2 : last < b := by
      unfold dateRange at hb
      simp only [List.mem_map, List.mem_range] at hb
      obtain ⟨i, hi, rfl⟩ := hb
      have hstep := stepDays_pos freq
      have hpos : 0 < ((i : ℤ) + 1) * freq.stepDays :=
        mul_pos (by positivity) hstep
      omega
    omega

/-- C1 (amended).  For every fitted autoregressive model whose library
outputs have horizon length and whose confidence intervals bracket the
point forecasts, `generate_forecast` at a positive horizon `N` returns a
table with exactly `N` rows, strictly increasing timestamps, and
`lower_ci ≤ forecast ≤ upper_ci` in every row.  For an additive-trend
(Prophet) model the returned table instead has `history length + N` rows,
because the future dataframe includes the training history; its
timestamps are still strictly increasing (given a strictly sorted
history) and its rows still satisfy `lower_ci ≤ forecast ≤ upper_ci`
(given that the library's predicted bounds bracket the predicted
points). -/
theorem C1_generate_forecast_shape :
    (∀ (lastDate : ℤ) (forecastFn : ℕ → List ℚ) (confIntFn : ℕ → List (ℚ × ℚ))
        (periods : ℕ) (freq : Freq),
      0 < periods →
      (forecastFn periods).length = periods →
      (confIntFn periods).length = periods →
      List.Forall₂ (fun fc ci => ci.1 ≤ fc ∧ fc ≤ ci.2)
        (forecastFn periods) (confIntFn periods) →
      (generate_forecast (.arima lastDate forecastFn confIntFn) periods freq).length
          = periods ∧
        ((generate_forecast (.arima lastDate forecastFn confIntFn) periods freq).map
          ForecastRow.date).Pairwise (· < ·) ∧
        ∀ r ∈ generate_forecast (.arima lastDate forecastFn confIntFn) periods freq,
          r.lower_ci ≤ r.forecast ∧ r.forecast ≤ r.upper_ci) ∧
    (∀ (history : List ℤ) (predictFn : ℤ → ℚ × ℚ × ℚ) (periods : ℕ) (freq : Freq),
      history ≠ [] →
      (generate_forecast (.prophet history predictFn) periods freq).length
        = history.length + periods) ∧
    (∀ (history : List ℤ) (predictFn : ℤ → ℚ × ℚ × ℚ) (periods : ℕ) (freq : Freq),
      history.Pairwise (· < ·) →
      (∀ d : ℤ, (predictFn d).2.1 ≤ (predictFn d).1 ∧ (predictFn d).1 ≤ (predictFn d).2.2) →
      ((generate_forecast (.prophet history predictFn) periods freq).map
        ForecastRow.date).Pairwise (· < ·) ∧
      ∀ r ∈ generate_forecast (.prophet history predictFn) periods freq,
        r.lower_ci ≤ r.forecast ∧ r.forecast ≤ r.upper_ci) := by
  refine ⟨?_, ?_, ?_⟩
  · intro lastDate forecastFn confIntFn periods freq _ hf hc hbr
    have hd : (dateRange lastDate periods freq).length = periods :=
      dateRange_length lastDate periods freq
    have h1 : (dateRange lastDate periods freq).length ≤ (forecastFn periods).length := by
      omega
    have h2 : (dateRange lastDate periods freq).length ≤ (confIntFn periods).length := by
      omega
    refine ⟨?_, ?_, ?_⟩
    · show (zip3Rows _ _ _).length = periods
      rw [zip3Rows_length _ _ _ h1 h2, hd]
    · show ((zip3Rows _ _ _).map ForecastRow.date).Pairwise (· < ·)
      rw [zip3Rows_map_date _ _ _ h1 h2]
      exact dateRange_pairwise lastDate periods freq
    · exact zip3Rows_bounds hbr _
  · intro history predictFn periods freq hh
    show ((make_future_dataframe history periods freq).map _).length = _
    rw [List.length_map, make_future_dataframe_length history periods freq hh]
  · intro history predictFn periods freq hs hbr
    constructor
    · show (((make_future_dataframe history periods freq).map
        (fun d => (⟨d, (predictFn d).1, (predictFn d).2.1, (predictFn d).2.2⟩ :
          ForecastRow))).map ForecastRow.date).Pairwise (· < ·)
      rw [List.map_map]
      have hid : (ForecastRow.date ∘ fun d =>
          (⟨d, (predictFn d).1, (predictFn d).2.1, (predictFn d).2.2⟩ : ForecastRow))
          = id := by
        funext d
        rfl
      rw [hid, List.map_id]
      exact make_future_pairwise history periods freq hs
    · intro r hr
      show r.lower_ci ≤ r.forecast ∧ r.forecast ≤ r.upper_ci
      simp only [generate_forecast, List.mem_map] at hr
      obtain ⟨d, _, rfl⟩ := hr
      exact hbr d

/-- C1 fails as stated: for an additive-trend (Prophet) model with one
training observation and horizon 1, the returned table has 2 rows, not 1. -/
theorem C1_counterexample :
    ¬ ((generate_forecast (.prophet [0] (fun _ => (0, 0, 0))) 1 .A).length = 1) := by
  decide

/-- Witness for C1 at a concrete autoregressive model and a concrete
additive-trend model. -/
theorem C1_witness :
    ((0 : ℕ) < 2 ∧
      ((fun n => List.replicate n (1 : ℚ)) 2).length = 2 ∧
      ((fun n => List.replicate n ((0 : ℚ), (2 : ℚ))) 2).length = 2 ∧
      List.Forall₂ (fun fc ci => ci.1 ≤ fc ∧ fc ≤ ci.2)
        ((fun n => List.replicate n (1 : ℚ)) 2)
        ((fun n => List.replicate n ((0 : ℚ), (2 : ℚ))) 2)) ∧
    ((generate_forecast
        (.arima 0 (fun n => List.replicate n (1 : ℚ))
          (fun n => List.replicate n ((0 : ℚ), (2 : ℚ)))) 2 .A).length = 2 ∧
      ((generate_forecast
        (.arima 0 (fun n => List.replicate n (1 : ℚ))
          (fun n => List.replicate n ((0 : ℚ), (2 : ℚ)))) 2 .A).map
        ForecastRow.date).Pairwise (· < ·) ∧
      ∀ r ∈ generate_forecast
        (.arima 0 (fun n => List.replicate n (1 : ℚ))
          (fun n => List.replicate n ((0 : ℚ), (2 : ℚ)))) 2 .A,
        r.lower_ci ≤ r.forecast ∧ r.forecast ≤ r.upper_ci) ∧
    (([(0 : ℤ), 10] : List ℤ) ≠ [] ∧
      ([(0 : ℤ), 10] : List ℤ).Pairwise (· < ·) ∧
      (∀ d : ℤ, ((fun _ : ℤ => ((1 : ℚ), (0 : ℚ), (2 : ℚ))) d).2.1
          ≤ ((fun _ : ℤ => ((1 : ℚ), (0 : ℚ), (2 : ℚ))) d).1 ∧
        ((fun _ : ℤ => ((1 : ℚ), (0 : ℚ), (2 : ℚ))) d).1
          ≤ ((fun _ : ℤ => ((1 : ℚ), (0 : ℚ), (2 : ℚ))) d).2.2)) ∧
    ((generate_forecast (.prophet [0, 10]
        (fun _ => ((1 : ℚ), (0 : ℚ), (2 : ℚ)))) 2 .A).length = 2 + 2 ∧
      ((generate_forecast (.prophet [0, 10]
        (fun _ => ((1 : ℚ), (0 : ℚ), (2 : ℚ)))) 2 .A).map
        ForecastRow.date).Pairwise (· < ·) ∧
      ∀ r ∈ generate_forecast (.prophet [0, 10]
        (fun _ => ((1 : ℚ), (0 : ℚ), (2 : ℚ)))) 2 .A,
        r.lower_ci ≤ r.forecast ∧ r.forecast ≤ r.upper_ci) :=
  ⟨⟨by decide, by decide, by decide, by norm_num [List.replicate, List.forall₂_cons]⟩,
    C1_generate_forecast_shape.1 0 _ _ 2 .A (by decide) (by decide) (by decide)
      (by norm_num [List.replicate, List.forall₂_cons]),
    ⟨by decide, by decide, fun d => ⟨by norm_num, by norm_num⟩⟩,
    C1_generate_forecast_shape.2.1 [0, 10] _ 2 .A (by decide),
    (C1_generate_forecast_shape.2.2 [0, 10] _ 2 .A (by decide)
      (fun d => ⟨by norm_num, by norm_num⟩)).1,
    (C1_generate_forecast_shape.2.2 [0, 10] _ 2 .A (by decide)
      (fun d => ⟨by norm_num, by norm_num⟩)).2⟩

/-! ## Dict helpers for `generate_scenarios` -/

/-- Looking up the key just assigned returns the assigned value. -/
theorem dictGet_upsert_self {α : Type} (d : List (String × α)) (k : String) (v : α) :
    dictGet (dictUpsert d k v) k = some v := by
  unfold dictUpsert
  by_cases h : d.any (fun p => p.1 = k)
  · rw [if_pos h]
    simp only [List.any_eq_true, decide_eq_true_eq] at h
    obtain ⟨p0, hp0, hk0⟩ := h
    induction d with
    | nil => simp at hp0
    | cons q rest ih =>
      by_cases hq : q.1 = k
      · simp [dictGet, hq]
      · rcases List.mem_cons.mp hp0 with rfl | hmem
        · exact absurd hk0 hq
        · simp only [List.map_cons, if_neg hq]
          rw [show dictGet ((q : String × α) :: List.map _ rest) k
              = dictGet (List.map (fun p => if p.1 = k then (k, v) else p) rest) k from
            by simp [dictGet, hq]]
          exact ih hmem
  · rw [if_neg h]
    simp only [List.any_eq_true, decide_eq_true_eq] at h
    push_neg at h
    induction d with
    | nil => simp [dictGet]
    | cons q rest ih =>
      have hq : q.1 ≠ k := h q (List.mem_cons_self q rest)
      simp only [List.cons_append, dictGet, if_neg hq]
      exact ih (fun p hp => h p (List.mem_cons_of_mem q hp))

/-- In-place replacement of another key does not change a lookup. -/
theorem dictGet_map_replace {α : Type} (d : List (String × α)) (k k' : String) (v : α)
    (hne : k' ≠ k) :
    dictGet (d.map (fun p => if p.1 = k' then (k', v) else p)) k = dictGet d k := by
  induction d with
  | nil => rfl
  | cons q rest ih =>
    by_cases hq : q.1 = k'
    · have hqk : q.1 ≠ k := by rw [hq]; exact hne
      simp [dictGet, hq, if_neg hne, if_neg hqk, ih]
    · simp only [List.map_cons, if_neg hq, dictGet]
      by_cases hqk : q.1 = k
      · simp [hqk]
      · simp [hqk, ih]

/-- Appending a binding for another key does not change a lookup. -/
theorem dictGet_append_single {α : Type} (d : List (String × α)) (k k' : String) (v : α)
    (hne : k' ≠ k) : dictGet (d ++ [(k', v)]) k = dictGet d k := by
  induction d with
  | nil => simp [dictGet, if_neg hne]
  | cons q rest ih =>
    simp only [List.cons_append, dictGet]
    by_cases hqk : q.1 = k
    · simp [hqk]
    · simp [hqk, ih]

/-- Assigning a different key does not change a lookup. -/
theorem dictGet_upsert_other {α : Type} (d : List (String × α)) (k k' : String) (v : α)
    (hne : k' ≠ k) : dictGet (dictUpsert d k' v) k = dictGet d k := by
  unfold dictUpsert
  by_cases h : d.any (fun p => p.1 = k')
  · rw [if_pos h]
    exact dictGet_map_replace d k k' v hne
  · rw [if_neg h]
    exact dictGet_append_single d k k' v hne

/-- Assignment never removes a present key. -/
theorem dictGet_upsert_isSome {α : Type} (d : List (String × α)) (k k' : String) (v : α)
    (h : (dictGet d k).isSome) : (dictGet (dictUpsert d k' v) k).isSome := by
  by_cases hk : k' = k
  · subst hk; rw [dictGet_upsert_self]; rfl
  · rw [dictGet_upsert_other d k k' v hk]; exact h

/-- The scenario fold leaves a key alone when no adjustment mentions it. -/
theorem scenFold_get_of_not_mem (base : List ForecastRow) (adjs : List (String × ℚ))
    (acc : List (String × List ForecastRow)) (k : String)
    (h : ∀ p ∈ adjs, p.1 ≠ k) :
    dictGet (adjs.foldl
      (fun acc nm => dictUpsert acc nm.1 (scaleForecast base nm.2)) acc) k
      = dictGet acc k := by
  induction adjs generalizing acc with
  | nil => rfl
  | cons q rest ih =>
    simp only [List.foldl_cons]
    rw [ih _ (fun p hp => h p (List.mem_cons_of_mem q hp)),
      dictGet_upsert_other _ _ _ _ (h q (List.mem_cons_self q rest))]

/-- The scenario fold maps each adjustment key (keys unique, as in a Python
dict) to the correspondingly scaled base forecast. -/
theorem scenFold_get_of_mem (base : List ForecastRow) (adjs : List (String × ℚ))
    (acc : List (String × List ForecastRow)) (name : String) (mult : ℚ)
    (huniq : adjs.Pairwise (fun a b => a.1 ≠ b.1)) (hmem : (name, mult) ∈ adjs) :
    dictGet (adjs.foldl
      (fun acc nm => dictUpsert acc nm.1 (scaleForecast base nm.2)) acc) name
      = some (scaleForecast base mult) := by
  induction adjs generalizing acc with
  | nil => simp at hmem
  | cons q rest ih =>
    simp only [List.foldl_cons]
    rcases List.mem_cons.mp hmem with heq | hmem'
    · have hrest : ∀ p ∈ rest, p.1 ≠ name := by
        intro p hp
        have := (List.pairwise_cons.mp huniq).1 p hp
        rw [← heq] at this
        exact fun hcontra => this hcontra.symm
      rw [scenFold_get_of_not_mem base rest _ name hrest, ← heq,
        dictGet_upsert_self]
    · exact ih _ (List.pairwise_cons.mp huniq).2 hmem'

/-- Keys present before the fold are still present after it. -/
theorem scenFold_isSome (base : List ForecastRow) (adjs : List (String × ℚ))
    (acc : List (String × List ForecastRow)) (k : String)
    (h : (dictGet acc k).isSome) :
    (dictGet (adjs.foldl
      (fun acc nm => dictUpsert acc nm.1 (scaleForecast base nm.2)) acc) k).isSome := by
  induction adjs generalizing acc with
  | nil => exact h
  | cons q rest ih =>
    simp only [List.foldl_cons]
    exact ih _ (dictGet_upsert_isSome _ _ _ _ h)

/-! ## Claim C3 -/

/-- C3.  For every base forecast and every adjustment entry with multiplier
`m > 0` (keys unique, as in a Python dict), the named scenario produced by
`generate_scenarios` is the base forecast with the `forecast`, `lower_ci`
and `upper_ci` columns multiplied by `m` uniformly across all rows (dates
unchanged), and the bound ordering `lower ≤ point ≤ upper` is preserved. -/
theorem C3_generate_scenarios_positive_multiplier
    (base : List ForecastRow) (adjs : List (String × ℚ)) (name : String) (mult : ℚ)
    (huniq : adjs.Pairwise (fun a b => a.1 ≠ b.1)) (hmem : (name, mult) ∈ adjs)
    (hpos : 0 < mult)
    (horder : ∀ r ∈ base, r.lower_ci ≤ r.forecast ∧ r.forecast ≤ r.upper_ci) :
    dictGet (generate_scenarios base adjs) name = some (scaleForecast base mult) ∧
    (scaleForecast base mult).map ForecastRow.forecast
      = base.map (fun r => r.forecast * mult) ∧
    (scaleForecast base mult).map ForecastRow.lower_ci
      = base.map (fun r => r.lower_ci * mult) ∧
    (scaleForecast base mult).map ForecastRow.upper_ci
      = base.map (fun r => r.upper_ci * mult) ∧
    (scaleForecast base mult).map ForecastRow.date = base.map ForecastRow.date ∧
    ∀ r ∈ scaleForecast base mult,
      r.lower_ci ≤ r.forecast ∧ r.forecast ≤ r.upper_ci := by
  refine ⟨scenFold_get_of_mem base adjs _ name mult huniq hmem, ?_, ?_, ?_, ?_, ?_⟩
  · simp [scaleForecast]
  · simp [scaleForecast]
  · simp [scaleForecast]
  · simp [scaleForecast]
  · intro r hr
    simp only [scaleForecast, List.mem_map] at hr
    obtain ⟨r0, hr0, rfl⟩ := hr
    obtain ⟨h1, h2⟩ := horder r0 hr0
    exact ⟨mul_le_mul_of_nonneg_right h1 hpos.le,
      mul_le_mul_of_nonneg_right h2 hpos.le⟩

/-- Witness for C3: the spec's example, base points `[55, 58, 60]` with
multiplier `1.10`, yields scenario points `[60.5, 63.8, 66.0]`. -/
theorem C3_witness :
    (([(("accelerated" : String), (11 / 10 : ℚ))].Pairwise (fun a b => a.1 ≠ b.1)) ∧
      (("accelerated", (11 / 10 : ℚ)) ∈ [(("accelerated" : String), (11 / 10 : ℚ))]) ∧
      (0 : ℚ) < 11 / 10 ∧
      (∀ r ∈ [(⟨0, 55, 50, 60⟩ : ForecastRow), ⟨365, 58, 53, 63⟩, ⟨730, 60, 55, 65⟩],
        r.lower_ci ≤ r.forecast ∧ r.forecast ≤ r.upper_ci)) ∧
    (dictGet (generate_scenarios
        [(⟨0, 55, 50, 60⟩ : ForecastRow), ⟨365, 58, 53, 63⟩, ⟨730, 60, 55, 65⟩]
        [("accelerated", 11 / 10)]) "accelerated"
      = some (scaleForecast
        [(⟨0, 55, 50, 60⟩ : ForecastRow), ⟨365, 58, 53, 63⟩, ⟨730, 60, 55, 65⟩]
        (11 / 10))) ∧
    (scaleForecast
        [(⟨0, 55, 50, 60⟩ : ForecastRow), ⟨365, 58, 53, 63⟩, ⟨730, 60, 55, 65⟩]
        (11 / 10)).map ForecastRow.forecast = [121 / 2, 319 / 5, 66] :=
  ⟨⟨by decide, by simp, by norm_num, by decide⟩,
    (C3_generate_scenarios_positive_multiplier _ _ "accelerated" (11 / 10)
      (by decide) (by simp) (by norm_num) (by decide)).1,
    by simp [scaleForecast]; norm_num⟩

/-! ## Claim C5 -/

/-- C5 fails as stated: when the adjustment mapping itself contains the key
`"base"`, the `'base'` entry is overwritten by the adjusted scenario and no
longer equals the unadjusted input forecast. -/
theorem C5_counterexample :
    dictGet (generate_scenarios [(⟨0, 1, 1, 1⟩ : ForecastRow)] [("base", 2)]) "base"
      ≠ some [(⟨0, 1, 1, 1⟩ : ForecastRow)] := by
  simp [generate_scenarios, dictUpsert, dictGet, scaleForecast]

/-- C5 (amended).  The ScenarioSet always contains a `"base"` key, and its
value equals the unadjusted input forecast whenever the adjustment mapping
does not itself contain the key `"base"`; an adjustment named `"base"`
overwrites the entry with the adjusted forecast. -/
theorem C5_base_entry :
    (∀ (base : List ForecastRow) (adjs : List (String × ℚ)),
      (dictGet (generate_scenarios base adjs) "base").isSome) ∧
    (∀ (base : List ForecastRow) (adjs : List (String × ℚ)),
      (∀ p ∈ adjs, p.1 ≠ "base") →
      dictGet (generate_scenarios base adjs) "base" = some base) := by
  constructor
  · intro base adjs
    exact scenFold_isSome base adjs _ "base" (by simp [dictGet])
  · intro base adjs h
    rw [generate_scenarios, scenFold_get_of_not_mem base adjs _ "base" h]
    simp [dictGet]

/-- Witness for C5 at a concrete base forecast and adjustment mapping. -/
theorem C5_witness :
    (∀ p ∈ [(("accelerated" : String), (2 : ℚ))], p.1 ≠ "base") ∧
    dictGet (generate_scenarios [(⟨0, 1, 1, 1⟩ : ForecastRow)]
        [("accelerated", 2)]) "base"
      = some [(⟨0, 1, 1, 1⟩ : ForecastRow)] :=
  ⟨by decide, C5_base_entry.2 _ _ (by decide)⟩

/-! ## Claim C7 -/

/-- C7 fails as stated: with multiplier `-1 ≤ 0` the code raises nothing
and produces the scenario anyway, scaled by `-1` (bounds inverted). -/
theorem C7_counterexample :
    dictGet (generate_scenarios [(⟨0, 2, 1, 3⟩ : ForecastRow)] [("crash", -1)]) "crash"
      = some [(⟨0, -2, -1, -3⟩ : ForecastRow)] := by
  simp [generate_scenarios, dictUpsert, dictGet, scaleForecast]

/-- C7 (amended).  `generate_scenarios` performs no multiplier validation:
for every adjustment entry with multiplier `m ≤ 0` (keys unique) it still
produces the named scenario, equal to the base forecast with the three
value columns multiplied by `m`. -/
theorem C7_nonpositive_multiplier_not_rejected
    (base : List ForecastRow) (adjs : List (String × ℚ)) (name : String) (mult : ℚ)
    (huniq : adjs.Pairwise (fun a b => a.1 ≠ b.1)) (hmem : (name, mult) ∈ adjs)
    (hnonpos : mult ≤ 0) :
    dictGet (generate_scenarios base adjs) name = some (scaleForecast base mult) := by
  exact scenFold_get_of_mem base adjs _ name mult huniq hmem

/-- Witness for C7 at the concrete `-1` multiplier. -/
theorem C7_witness :
    (([(("crash" : String), (-1 : ℚ))].Pairwise (fun a b => a.1 ≠ b.1)) ∧
      (("crash", (-1 : ℚ)) ∈ [(("crash" : String), (-1 : ℚ))]) ∧ ((-1 : ℚ) ≤ 0)) ∧
    dictGet (generate_scenarios [(⟨0, 2, 1, 3⟩ : ForecastRow)] [("crash", -1)]) "crash"
      = some (scaleForecast [(⟨0, 2, 1, 3⟩ : ForecastRow)] (-1)) :=
  ⟨⟨by decide, by decide, by norm_num⟩,
    C7_nonpositive_multiplier_not_rejected _ _ "crash" (-1)
      (by decide) (by decide) (by norm_num)⟩

/-! ## Min/max and weighted-sum helpers for the ensemble -/

theorem foldl_min_le_init (x : ℚ) (xs : List ℚ) : xs.foldl min x ≤ x := by
  induction xs generalizing x with
  | nil => simp
  | cons y ys ih => simpa using le_trans (ih (min x y)) (min_le_left x y)

theorem foldl_min_le_mem (x : ℚ) (xs : List ℚ) : ∀ y ∈ xs, xs.foldl min x ≤ y := by
  induction xs generalizing x with
  | nil => simp
  | cons z zs ih =>
    intro y hy
    rcases List.mem_cons.mp hy with rfl | hy
    · exact le_trans (foldl_min_le_init (min x y) zs) (min_le_right x y)
    · exact ih (min x z) y hy

theorem foldl_min_mem (x : ℚ) (xs : List ℚ) : xs.foldl min x ∈ x :: xs := by
  induction xs generalizing x with
  | nil => simp
  | cons y ys ih =>
    have h := ih (min x y)
    rcases List.mem_cons.mp h with h' | h'
    · rcases min_choice x y with hc | hc
      · rw [List.foldl_cons, h', hc]; exact List.mem_cons_self _ _
      · rw [List.foldl_cons, h', hc]; exact List.mem_cons_of_mem _ (List.mem_cons_self _ _)
    · exact List.mem_cons_of_mem _ (List.mem_cons_of_mem _ h')

theorem foldl_max_le_init (x : ℚ) (xs : List ℚ) : x ≤ xs.foldl max x := by
  induction xs generalizing x with
  | nil => simp
  | cons y ys ih => simpa using le_trans (le_max_left x y) (ih (max x y))

theorem foldl_max_le_mem (x : ℚ) (xs : List ℚ) : ∀ y ∈ xs, y ≤ xs.foldl max x := by
  induction xs generalizing x with
  | nil => simp
  | cons z zs ih =>
    intro y hy
    rcases List.mem_cons.mp hy with rfl | hy
    · exact le_trans (le_max_right x y) (foldl_max_le_init (max x y) zs)
    · exact ih (max x z) y hy

theorem foldl_max_mem (x : ℚ) (xs : List ℚ) : xs.foldl max x ∈ x :: xs := by
  induction xs generalizing x with
  | nil => simp
  | cons y ys ih =>
    have h := ih (max x y)
    rcases List.mem_cons.mp h with h' | h'
    · rcases max_choice x y with hc | hc
      · rw [List.foldl_cons, h', hc]; exact List.mem_cons_self _ _
      · rw [List.foldl_cons, h', hc]; exact List.mem_cons_of_mem _ (List.mem_cons_self _ _)
    · exact List.mem_cons_of_mem _ (List.mem_cons_of_mem _ h')

theorem reduceMin_le (l : List ℚ) : ∀ x ∈ l, reduceMin l ≤ x := by
  cases l with
  | nil => simp
  | cons x xs =>
    intro y hy
    rcases List.mem_cons.mp hy with rfl | hy
    · exact foldl_min_le_init y xs
    · exact foldl_min_le_mem x xs y hy

theorem reduceMin_mem (l : List ℚ) (h : l ≠ []) : reduceMin l ∈ l := by
  cases l with
  | nil => exact absurd rfl h
  | cons x xs => exact foldl_min_mem x xs

theorem reduceMax_le (l : List ℚ) : ∀ x ∈ l, x ≤ reduceMax l := by
  cases l with
  | nil => simp
  | cons x xs =>
    intro y hy
    rcases List.mem_cons.mp hy with rfl | hy
    · exact foldl_max_le_init y xs
    · exact foldl_max_le_mem x xs y hy

theorem reduceMax_mem (l : List ℚ) (h : l ≠ []) : reduceMax l ∈ l := by
  cases l with
  | nil => exact absurd rfl h
  | cons x xs => exact foldl_max_mem x xs

theorem foldl_weighted_sum (fs : List (List ForecastRow)) (ws : List ℚ) (j : ℕ) (init : ℚ) :
    (fs.zip ws).foldl (fun acc fw => acc + (fw.1.getD j default).forecast * fw.2) init
      = init + (List.zipWith (fun f w => ((f.getD j default : ForecastRow)).forecast * w)
          fs ws).sum := by
  induction fs generalizing ws init with
  | nil => simp
  | cons f fs ih =>
    cases ws with
    | nil => simp
    | cons w ws =>
      simp only [List.zip_cons_cons, List.foldl_cons, List.zipWith_cons_cons, List.sum_cons]
      rw [ih ws (init + (f.getD j default).forecast * w)]
      ring

theorem list_getD_range (n j : ℕ) (d : ℕ) (h : j < n) : (List.range n).getD j d = j := by
  rw [List.getD_eq_getElem _ _ (by simpa using h)]
  simp

theorem combineForecasts_getD (f0 : List ForecastRow) (rest : List (List ForecastRow))
    (ws : List ℚ) (j : ℕ) (hj : j < f0.length) :
    (combineForecasts (f0 :: rest) ws).getD j default =
      { date := (f0.getD j default).date
        forecast := (List.zipWith
          (fun f w => ((f.getD j default : ForecastRow)).forecast * w) (f0 :: rest) ws).sum
        lower_ci := reduceMin ((f0 :: rest).map (fun f => (f.getD j default).lower_ci))
        upper_ci := reduceMax ((f0 :: rest).map (fun f => (f.getD j default).upper_ci)) } := by
  unfold combineForecasts
  rw [list_getD_map _ _ j 0 _ (by simpa using hj), list_getD_range _ _ _ hj,
    foldl_weighted_sum]
  simp

theorem ensemble_eq_combine (models : List FittedModel) (periods : ℕ) (ws : List ℚ)
    (hm : models ≠ []) (hw : ws.length = models.length)
    (hne : ∀ f ∈ models.map (fun m => generate_forecast m periods .A), f ≠ []) :
    ensemble_forecast models periods (some ws)
      = combineForecasts (models.map (fun m => generate_forecast m periods .A)) ws := by
  cases models with
  | nil => exact absurd rfl hm
  | cons m ms =>
    show (if ws.length ≠ (m :: ms).length then []
      else
        let forecasts := ((m :: ms).map (fun m => generate_forecast m periods .A)).filter
          (fun f => ¬ f.isEmpty)
        if forecasts.isEmpty then [] else combineForecasts forecasts ws) = _
    rw [if_neg (by omega)]
    have hfull : ((m :: ms).map (fun m => generate_forecast m periods .A)).filter
        (fun f => ¬ f.isEmpty) = (m :: ms).map (fun m => generate_forecast m periods .A) := by
      apply List.filter_eq_self.mpr
      intro f hf
      simpa [List.isEmpty_iff] using hne f hf
    rw [hfull]
    rw [if_neg (by simp)]

/-! ## Claim C2 -/

/-- C2.  For every non-empty model list whose generated forecasts are all
aligned at length `L`, and every weight list of matching length, the
ensemble row at each position `j < L` has: point forecast equal to the
weighted sum of the per-model point forecasts, lower bound equal to the
minimum of the models' lower bounds (a lower bound of all of them, and
attained), and upper bound equal to the maximum of the models' upper
bounds. -/
theorem C2_ensemble_weighted_sum_minmax (models : List FittedModel) (periods : ℕ) (ws : List ℚ) (L j : ℕ)
    (hm : models ≠ []) (hw : ws.length = models.length)
    (hL : ∀ f ∈ models.map (fun m => generate_forecast m periods .A), f.length = L)
    (hj : j < L) :
    ((ensemble_forecast models periods (some ws)).getD j default).forecast
      = (List.zipWith (fun f w => ((f.getD j default : ForecastRow)).forecast * w)
          (models.map (fun m => generate_forecast m periods .A)) ws).sum ∧
    ((∀ f ∈ models.map (fun m => generate_forecast m periods .A),
      ((ensemble_forecast models periods (some ws)).getD j default).lower_ci
        ≤ (f.getD j default).lower_ci) ∧
     ((ensemble_forecast models periods (some ws)).getD j default).lower_ci
      ∈ (models.map (fun m => generate_forecast m periods .A)).map
          (fun f => (f.getD j default).lower_ci)) ∧
    ((∀ f ∈ models.map (fun m => generate_forecast m periods .A),
      (f.getD j default).upper_ci
        ≤ ((ensemble_forecast models periods (some ws)).getD j default).upper_ci) ∧
     ((ensemble_forecast models periods (some ws)).getD j default).upper_ci
      ∈ (models.map (fun m => generate_forecast m periods .A)).map
          (fun f => (f.getD j default).upper_ci)) := by
  have hne : ∀ f ∈ models.map (fun m => generate_forecast m periods .A), f ≠ [] := by
    intro f hf
    have := hL f hf
    intro hcontra
    rw [hcontra] at this
    simp at this
    omega
  rw [ensemble_eq_combine models periods ws hm hw hne]
  cases hms : models.map (fun m => generate_forecast m periods .A) with
  | nil => exact absurd (List.map_eq_nil_iff.mp hms) hm
  | cons f0 rest =>
    have hf0 : f0.length = L := hL f0 (hms ▸ List.mem_cons_self f0 rest)
    rw [combineForecasts_getD f0 rest ws j (by omega)]
    refine ⟨rfl, ⟨?_, ?_⟩, ⟨?_, ?_⟩⟩
    · intro f hf
      exact reduceMin_le _ _ (List.mem_map_of_mem (fun f => (f.getD j default).lower_ci) hf)
    · exact reduceMin_mem _ (by simp)
    · intro f hf
      exact reduceMax_le _ _ (List.mem_map_of_mem (fun f => (f.getD j default).upper_ci) hf)
    · exact reduceMax_mem _ (by simp)

/-- A singleton ensemble under default weights reproduces the model's own
forecast table exactly. -/
theorem ensemble_singleton (m : FittedModel) (periods : ℕ) :
    ensemble_forecast [m] periods none = generate_forecast m periods .A := by
  show (if (List.replicate (List.length [m]) ((1 : ℚ) / ((List.length [m] : ℕ) : ℚ))).length
        ≠ (List.length [m]) then []
      else
        let forecasts := ([m].map (fun m => generate_forecast m periods .A)).filter
          (fun f => ¬ f.isEmpty)
        if forecasts.isEmpty then [] else combineForecasts forecasts
          (List.replicate (List.length [m]) ((1 : ℚ) / ((List.length [m] : ℕ) : ℚ)))) = _
  rw [if_neg (by simp)]
  by_cases hf : generate_forecast m periods .A = []
  · simp [hf]
  · have hfilter : ([m].map (fun m => generate_forecast m periods .A)).filter
        (fun f => ¬ f.isEmpty) = [generate_forecast m periods .A] := by
      simp [List.filter, List.isEmpty_iff, hf]
    rw [hfilter]
    rw [if_neg (by simp)]
    show combineForecasts [generate_forecast m periods .A] [(1 : ℚ) / ((1 : ℕ) : ℚ)] = _
    show (List.range (generate_forecast m periods .A).length).map (fun j =>
      ({ date := ((generate_forecast m periods .A).getD j default).date
         forecast := (([generate_forecast m periods .A]).zip
             [(1 : ℚ) / ((1 : ℕ) : ℚ)]).foldl
           (fun acc fw => acc + (fw.1.getD j default).forecast * fw.2) 0
         lower_ci := reduceMin (([generate_forecast m periods .A]).map
           (fun f => (f.getD j default).lower_ci))
         upper_ci := reduceMax (([generate_forecast m periods .A]).map
           (fun f => (f.getD j default).upper_ci)) } : ForecastRow)) = _
    have hmap : ∀ j ∈ List.range (generate_forecast m periods .A).length,
        ({ date := ((generate_forecast m periods .A).getD j default).date
           forecast := (([generate_forecast m periods .A]).zip
               [(1 : ℚ) / ((1 : ℕ) : ℚ)]).foldl
             (fun acc fw => acc + (fw.1.getD j default).forecast * fw.2) 0
           lower_ci := reduceMin (([generate_forecast m periods .A]).map
             (fun f => (f.getD j default).lower_ci))
           upper_ci := reduceMax (([generate_forecast m periods .A]).map
             (fun f => (f.getD j default).upper_ci)) } : ForecastRow)
          = (generate_forecast m periods .A).getD j default := by
      intro j _
      simp only [List.zip_cons_cons, List.zip_nil_left, List.foldl_cons, List.foldl_nil,
        List.map_cons, List.map_nil, reduceMin, reduceMax]
      rcases hr : (generate_forecast m periods .A).getD j default with ⟨d, fc, lo, hi⟩
      simp [ForecastRow.mk.injEq]
    rw [List.map_congr_left hmap, list_map_getD_range]

/-- Witness for C2: two models with point forecasts `[50, 55, 60]` and
`[52, 57, 62]` under equal weights `1/2` give the ensemble point estimates
`[51, 56, 61]`. -/
theorem C2_witness :
    (([c2ModelA, c2ModelB] : List FittedModel) ≠ [] ∧
      ([(1 : ℚ) / 2, 1 / 2] : List ℚ).length = [c2ModelA, c2ModelB].length ∧
      (∀ f ∈ [c2ModelA, c2ModelB].map (fun m => generate_forecast m 3 .A),
        f.length = 3) ∧
      (1 : ℕ) < 3) ∧
    ((ensemble_forecast [c2ModelA, c2ModelB] 3 (some [1 / 2, 1 / 2])).getD 1
        default).forecast
      = (List.zipWith (fun f w => ((f.getD 1 default : ForecastRow)).forecast * w)
          ([c2ModelA, c2ModelB].map (fun m => generate_forecast m 3 .A))
          [1 / 2, 1 / 2]).sum ∧
    (ensemble_forecast [c2ModelA, c2ModelB] 3 (some [1 / 2, 1 / 2])).map
      ForecastRow.forecast = [51, 56, 61] :=
  ⟨⟨List.cons_ne_nil _ _, by decide, by decide, by decide⟩,
    (C2_ensemble_weighted_sum_minmax [c2ModelA, c2ModelB] 3 [1 / 2, 1 / 2] 3 1
      (List.cons_ne_nil _ _) (by decide) (by decide) (by decide)).1,
    by simp [ensemble_forecast, c2ModelA, c2ModelB, generate_forecast, dateRange, zip3Rows,
        combineForecasts, reduceMin, reduceMax, List.range_succ, List.filter, min_def,
        max_def]
       norm_num⟩

/-! ## Claim C10 -/

/-- C10.  For a single fitted model whose generated forecast is non-empty
and any horizon, the ensemble of the one-element model list under omitted
(default) weights has the same `forecast`, `lower_ci` and `upper_ci`
columns as the forecast generated from the model directly. -/
theorem C10_singleton_ensemble_identity (m : FittedModel) (periods : ℕ)
    (hne : generate_forecast m periods .A ≠ []) :
    (ensemble_forecast [m] periods none).map ForecastRow.forecast
        = (generate_forecast m periods .A).map ForecastRow.forecast ∧
    (ensemble_forecast [m] periods none).map ForecastRow.lower_ci
        = (generate_forecast m periods .A).map ForecastRow.lower_ci ∧
    (ensemble_forecast [m] periods none).map ForecastRow.upper_ci
        = (generate_forecast m periods .A).map ForecastRow.upper_ci := by
  rw [ensemble_singleton]
  exact ⟨rfl, rfl, rfl⟩

/-- Witness for C10 at a concrete two-step autoregressive model. -/
theorem C10_witness :
    generate_forecast (.arima 0 (fun _ => [(1 : ℚ), 2])
        (fun _ => [((0 : ℚ), (2 : ℚ)), (1, 3)])) 2 .A ≠ [] ∧
    ((ensemble_forecast [.arima 0 (fun _ => [(1 : ℚ), 2])
          (fun _ => [((0 : ℚ), (2 : ℚ)), (1, 3)])] 2 none).map ForecastRow.forecast
        = (generate_forecast (.arima 0 (fun _ => [(1 : ℚ), 2])
          (fun _ => [((0 : ℚ), (2 : ℚ)), (1, 3)])) 2 .A).map ForecastRow.forecast ∧
      (ensemble_forecast [.arima 0 (fun _ => [(1 : ℚ), 2])
          (fun _ => [((0 : ℚ), (2 : ℚ)), (1, 3)])] 2 none).map ForecastRow.lower_ci
        = (generate_forecast (.arima 0 (fun _ => [(1 : ℚ), 2])
          (fun _ => [((0 : ℚ), (2 : ℚ)), (1, 3)])) 2 .A).map ForecastRow.lower_ci ∧
      (ensemble_forecast [.arima 0 (fun _ => [(1 : ℚ), 2])
          (fun _ => [((0 : ℚ), (2 : ℚ)), (1, 3)])] 2 none).map ForecastRow.upper_ci
        = (generate_forecast (.arima 0 (fun _ => [(1 : ℚ), 2])
          (fun _ => [((0 : ℚ), (2 : ℚ)), (1, 3)])) 2 .A).map ForecastRow.upper_ci) :=
  ⟨by decide, C10_singleton_ensemble_identity _ 2 (by decide)⟩

/-! ## IEEE-value helpers and claims C4, C6 -/

theorem extAdd_nan_left (x : ExtVal) : extAdd .nan x = .nan := by cases x <;> rfl

theorem extAdd_nan_right (x : ExtVal) : extAdd x .nan = .nan := by cases x <;> rfl

theorem extSum_map_fin (l : List ℚ) : extSum (l.map ExtVal.fin) = .fin l.sum := by
  induction l with
  | nil => rfl
  | cons x xs ih => simp [extSum, ih, extAdd]

theorem extSum_of_nan_mem (l : List ExtVal) (h : ExtVal.nan ∈ l) : extSum l = .nan := by
  induction l with
  | nil => simp at h
  | cons x xs ih =>
    rcases List.mem_cons.mp h with rfl | h'
    · exact extAdd_nan_left _
    · rw [extSum, ih h', extAdd_nan_right]

theorem extSum_no_nan_ninf (l : List ExtVal)
    (h : ∀ x ∈ l, x ≠ .nan ∧ x ≠ .ninf) :
    (∃ q, extSum l = .fin q) ∨ extSum l = .pinf := by
  induction l with
  | nil => exact Or.inl ⟨0, rfl⟩
  | cons x xs ih =>
    have hx := h x (List.mem_cons_self x xs)
    have hxs := ih (fun y hy => h y (List.mem_cons_of_mem x hy))
    cases x with
    | fin q =>
      rcases hxs with ⟨q', hq'⟩ | hp
      · exact Or.inl ⟨q + q', by rw [extSum, hq']; rfl⟩
      · exact Or.inr (by rw [extSum, hp]; rfl)
    | pinf =>
      rcases hxs with ⟨q', hq'⟩ | hp
      · exact Or.inr (by rw [extSum, hq']; rfl)
      · exact Or.inr (by rw [extSum, hp]; rfl)
    | ninf => exact absurd rfl hx.2
    | nan => exact absurd rfl hx.1

theorem extSum_of_pinf_mem (l : List ExtVal)
    (h : ∀ x ∈ l, x ≠ .nan ∧ x ≠ .ninf) (hp : ExtVal.pinf ∈ l) :
    extSum l = .pinf := by
  induction l with
  | nil => simp at hp
  | cons x xs ih =>
    have hxs := extSum_no_nan_ninf xs (fun y hy => h y (List.mem_cons_of_mem x hy))
    rcases List.mem_cons.mp hp with rfl | hp'
    · rcases hxs with ⟨q', hq'⟩ | hpp
      · rw [extSum, hq']; rfl
      · rw [extSum, hpp]; rfl
    · rw [extSum, ih (fun y hy => h y (List.mem_cons_of_mem x hy)) hp']
      have hx := h x (List.mem_cons_self x xs)
      cases x with
      | fin q => rfl
      | pinf => rfl
      | ninf => exact absurd rfl hx.2
      | nan => exact absurd rfl hx.1

theorem extScale_pinf_of_pos (c : ℚ) (hc : 0 < c) : extScale c .pinf = .pinf := by
  simp [extScale, hc]

theorem list_sum_map_eq_finset {α : Type} (l : List α) (f : α → ℚ) (d : α) :
    (l.map f).sum = ∑ i in Finset.range l.length, f (l.getD i d) := by
  induction l with
  | nil => simp
  | cons x xs ih =>
    rw [List.map_cons, List.sum_cons, List.length_cons, Finset.sum_range_succ']
    simp only [List.getD_cons_succ, List.getD_cons_zero]
    rw [ih]
    ring

theorem list_sum_eq_finset (l : List ℚ) :
    l.sum = ∑ i in Finset.range l.length, l.getD i 0 := by
  induction l with
  | nil => simp
  | cons x xs ih =>
    rw [List.sum_cons, List.length_cons, Finset.sum_range_succ']
    simp only [List.getD_cons_succ, List.getD_cons_zero]
    rw [ih]
    ring

theorem mapeTerms_length (a p : List ℚ) (h : a.length = p.length) :
    (mapeTerms a p).length = a.length := by
  simp [mapeTerms, errorsOf, h]

theorem mapeTerms_getD (a p : List ℚ) (j : ℕ) (h : a.length = p.length)
    (hj : j < a.length) :
    (mapeTerms a p).getD j .nan
      = extAbs (extDiv (a.getD j 0 - p.getD j 0) (a.getD j 0)) := by
  unfold mapeTerms
  rw [list_getD_zipWith _ _ _ j 0 0 _ (by simp [errorsOf]; omega) hj]
  unfold errorsOf
  rw [list_getD_zipWith _ _ _ j 0 0 _ (by omega) (by omega)]

theorem mapeTerms_all_fin (a p : List ℚ) (h : a.length = p.length)
    (hnz : ∀ i < a.length, a.getD i 0 ≠ 0) :
    mapeTerms a p
      = (List.zipWith (fun av pv => |(av - pv) / av|) a p).map ExtVal.fin := by
  induction a generalizing p with
  | nil => cases p <;> simp [mapeTerms, errorsOf]
  | cons a0 as ih =>
    cases p with
    | nil => simp at h
    | cons p0 ps =>
      have h0 : a0 ≠ 0 := by simpa using hnz 0 (by simp)
      show extAbs (extDiv (a0 - p0) a0) :: mapeTerms as ps = _
      rw [List.zipWith_cons_cons, List.map_cons]
      congr 1
      · simp [extDiv, extAbs, h0]
      · exact ih ps (by simpa using h)
          (fun i hi => by simpa using hnz (i + 1) (by simpa using Nat.succ_lt_succ hi))

/-- C4.  For equal-length nonempty numeric sequences with no zero actual
value, `validate_forecast` returns MAE = mean of the absolute errors,
RMSE = the square root of the mean squared error, and MAPE = the mean of
the absolute relative errors times 100. -/
theorem C4_validate_forecast_formulas (actual predicted : List ℚ) (n : ℕ)
    (hlen : actual.length = predicted.length) (hn : n = actual.length) (hpos : 0 < n)
    (hnz : ∀ i < n, actual.getD i 0 ≠ 0) :
    (validate_forecast actual predicted).1
      = (∑ i in Finset.range n, |actual.getD i 0 - predicted.getD i 0|) / (n : ℚ) ∧
    (validate_forecast actual predicted).2.1
      = Real.sqrt (((∑ i in Finset.range n,
          (actual.getD i 0 - predicted.getD i 0) ^ 2) / (n : ℚ) : ℚ)) ∧
    (validate_forecast actual predicted).2.2
      = .fin (100 * ((∑ i in Finset.range n,
          |(actual.getD i 0 - predicted.getD i 0) / actual.getD i 0|) / (n : ℚ))) := by
  have hel : (errorsOf actual predicted).length = n := by
    simp [errorsOf]; omega
  have hgetD : ∀ i < n, (errorsOf actual predicted).getD i 0
      = actual.getD i 0 - predicted.getD i 0 := by
    intro i hi
    unfold errorsOf
    rw [list_getD_zipWith _ _ _ i 0 0 _ (by omega) (by omega)]
  refine ⟨?_, ?_, ?_⟩
  · show mae actual predicted = _
    unfold mae
    rw [list_sum_map_eq_finset _ _ 0, hel]
    rw [Finset.sum_congr rfl (fun i hi => by
      rw [hgetD i (Finset.mem_range.mp hi)])]
  · show rmse actual predicted = _
    unfold rmse
    have hq : mse actual predicted
        = (∑ i in Finset.range n, (actual.getD i 0 - predicted.getD i 0) ^ 2) / (n : ℚ) := by
      unfold mse
      rw [list_sum_map_eq_finset _ _ 0, hel]
      rw [Finset.sum_congr rfl (fun i hi => by
        rw [hgetD i (Finset.mem_range.mp hi)])]
    rw [hq]
  · show mape actual predicted = _
    unfold mape
    rw [mapeTerms_all_fin actual predicted hlen (hn ▸ hnz)]
    unfold extMean
    have hzl : (List.zipWith (fun av pv => |(av - pv) / av|) actual predicted).length = n := by
      simp; omega
    rw [List.length_map, hzl, if_neg (by omega), extSum_map_fin]
    show ExtVal.fin (100 * ((n : ℚ)⁻¹ *
      (List.zipWith (fun av pv => |(av - pv) / av|) actual predicted).sum)) = _
    have hsum : (List.zipWith (fun av pv => |(av - pv) / av|) actual predicted).sum
        = ∑ i in Finset.range n, |(actual.getD i 0 - predicted.getD i 0) / actual.getD i 0| := by
      rw [list_sum_eq_finset, hzl]
      apply Finset.sum_congr rfl
      intro i hi
      have hin := Finset.mem_range.mp hi
      rw [list_getD_zipWith _ _ _ i 0 0 _ (by omega) (by omega)]
    rw [hsum]
    congr 1
    field_simp

theorem extAbs_extDiv_zero (e : ℚ) (he : e ≠ 0) : extAbs (extDiv e 0) = .pinf := by
  unfold extDiv
  rw [if_neg (by simp)]
  rcases lt_or_gt_of_ne he with hlt | hgt
  · rw [if_neg (by linarith), if_pos hlt]; rfl
  · rw [if_pos hgt]; rfl

theorem extAbs_extDiv_ne_zero (e av : ℚ) (hav : av ≠ 0) :
    extAbs (extDiv e av) = .fin |e / av| := by
  unfold extDiv
  rw [if_pos hav]
  rfl

/-- C6 (amended).  When some actual value is exactly zero,
`validate_forecast`'s MAPE degrades to an IEEE special value rather than
raising: it is NaN when the matching predicted value is also zero (a `0/0`
term), and `+inf` when every zero actual has a nonzero prediction (a
nonzero-over-zero term); MAE and RMSE are unaffected, still equal to their
usual finite formulas. -/
theorem C6_mape_with_zero_actuals (actual predicted : List ℚ)
    (hlen : actual.length = predicted.length) (hpos : 0 < actual.length) :
    ((∃ i, i < actual.length ∧ actual.getD i 0 = 0 ∧ predicted.getD i 0 = 0) →
      mape actual predicted = .nan) ∧
    ((∃ i, i < actual.length ∧ actual.getD i 0 = 0) →
      (∀ i < actual.length, actual.getD i 0 = 0 → predicted.getD i 0 ≠ 0) →
      mape actual predicted = .pinf) ∧
    mae actual predicted
      = ((errorsOf actual predicted).map (fun e => |e|)).sum / (actual.length : ℚ) ∧
    rmse actual predicted
      = Real.sqrt ((((errorsOf actual predicted).map (fun e => e ^ 2)).sum
          / (actual.length : ℚ) : ℚ)) := by
  have hterms_len : (mapeTerms actual predicted).length = actual.length :=
    mapeTerms_length _ _ hlen
  have herr_len : (errorsOf actual predicted).length = actual.length := by
    simp [errorsOf]; omega
  refine ⟨?_, ?_, ?_, ?_⟩
  · rintro ⟨i, hi, ha, hp⟩
    have hterm : (mapeTerms actual predicted).getD i .nan = .nan := by
      rw [mapeTerms_getD _ _ i hlen hi, ha, hp]
      norm_num [extDiv, extAbs]
    have hmem : ExtVal.nan ∈ mapeTerms actual predicted := by
      rw [← hterm, List.getD_eq_getElem _ _ (by omega)]
      exact List.getElem_mem _
    unfold mape extMean
    rw [hterms_len, if_neg (by omega), extSum_of_nan_mem _ hmem]
    rfl
  · rintro ⟨i, hi, ha⟩ hnzp
    have hforall : ∀ x ∈ mapeTerms actual predicted, x ≠ .nan ∧ x ≠ .ninf := by
      intro x hx
      obtain ⟨⟨k, hk⟩, hget⟩ := List.mem_iff_get.mp hx
      have hkl : k < actual.length := by omega
      have hxeq : x = extAbs (extDiv (actual.getD k 0 - predicted.getD k 0)
          (actual.getD k 0)) := by
        rw [← hget, ← List.getD_eq_get, mapeTerms_getD _ _ k hlen hkl]
      by_cases hav : actual.getD k 0 = 0
      · have hpv : predicted.getD k 0 ≠ 0 := hnzp k hkl hav
        rw [hxeq, hav, extAbs_extDiv_zero _ (by simpa using hpv)]
        exact ⟨by simp, by simp⟩
      · rw [hxeq, extAbs_extDiv_ne_zero _ _ hav]
        exact ⟨by simp, by simp⟩
    have hpv : predicted.getD i 0 ≠ 0 := hnzp i hi ha
    have hterm : (mapeTerms actual predicted).getD i .nan = .pinf := by
      rw [mapeTerms_getD _ _ i hlen hi, ha, extAbs_extDiv_zero _ (by simpa using hpv)]
    have hmem : ExtVal.pinf ∈ mapeTerms actual predicted := by
      rw [← hterm, List.getD_eq_getElem _ _ (by omega)]
      exact List.getElem_mem _
    unfold mape extMean
    rw [hterms_len, if_neg (by omega), extSum_of_pinf_mem _ hforall hmem,
      extScale_pinf_of_pos _ (by positivity), extScale_pinf_of_pos _ (by norm_num)]
  · unfold mae
    rw [herr_len]
  · unfold rmse mse
    rw [herr_len]

/-- C6 fails as stated: for `actual = [0]`, `predicted = [1]` the MAPE is
`+inf`, not NaN. -/
theorem C6_counterexample :
    mape [(0 : ℚ)] [(1 : ℚ)] = .pinf ∧ mape [(0 : ℚ)] [(1 : ℚ)] ≠ .nan := by
  have h1 : mape [(0 : ℚ)] [(1 : ℚ)] = .pinf := by
    simp [mape, mapeTerms, errorsOf, extDiv, extAbs, extMean, extSum, extAdd, extScale]
    norm_num
  exact ⟨h1, by rw [h1]; decide⟩

/-- Witness for C4: the spec example `actual=[50,55,60]`,
`predicted=[51,54,61]` gives MAE = 1, RMSE = 1 and
MAPE = 181/99 ≈ 1.83. -/
theorem C4_witness :
    (([(50 : ℚ), 55, 60] : List ℚ).length = ([(51 : ℚ), 54, 61] : List ℚ).length ∧
      (3 : ℕ) = ([(50 : ℚ), 55, 60] : List ℚ).length ∧ (0 : ℕ) < 3 ∧
      (∀ i < 3, ([(50 : ℚ), 55, 60] : List ℚ).getD i 0 ≠ 0)) ∧
    (validate_forecast [50, 55, 60] [51, 54, 61]).1 = 1 ∧
    (validate_forecast [50, 55, 60] [51, 54, 61]).2.1 = 1 ∧
    (validate_forecast [50, 55, 60] [51, 54, 61]).2.2 = .fin (181 / 99) := by
  have h := C4_validate_forecast_formulas [50, 55, 60] [51, 54, 61] 3 (by decide) (by decide) (by decide)
    (by decide)
  refine ⟨⟨by decide, by decide, by decide, by decide⟩, ?_, ?_, ?_⟩
  · rw [h.1]
    norm_num [Finset.sum_range_succ]
  · rw [h.2.1]
    have h1 : ((∑ i in Finset.range 3,
        (([(50:ℚ),55,60] : List ℚ).getD i 0 - ([(51:ℚ),54,61] : List ℚ).getD i 0) ^ 2)
          / ((3 : ℕ) : ℚ)) = 1 := by
      norm_num [Finset.sum_range_succ]
    rw [h1]
    norm_num [Real.sqrt_one]
  · rw [h.2.2]
    congr 1
    norm_num [Finset.sum_range_succ, abs_of_nonneg]

/-- Witness for C6 at `actual = [0, 5]`, `predicted = [1, 5]`. -/
theorem C6_witness :
    (([(0 : ℚ), 5] : List ℚ).length = ([(1 : ℚ), 5] : List ℚ).length ∧
      0 < ([(0 : ℚ), 5] : List ℚ).length ∧
      (∃ i, i < ([(0 : ℚ), 5] : List ℚ).length ∧
        ([(0 : ℚ), 5] : List ℚ).getD i 0 = 0) ∧
      (∀ i < ([(0 : ℚ), 5] : List ℚ).length, ([(0 : ℚ), 5] : List ℚ).getD i 0 = 0 →
        ([(1 : ℚ), 5] : List ℚ).getD i 0 ≠ 0)) ∧
    mape [(0 : ℚ), 5] [(1 : ℚ), 5] = .pinf :=
  ⟨⟨by decide, by decide, ⟨0, by decide, by decide⟩, by decide⟩,
    (C6_mape_with_zero_actuals [(0 : ℚ), 5] [(1 : ℚ), 5] (by decide) (by decide)).2.1
      ⟨0, by decide, by decide⟩ (by decide)⟩

/-! ## Claim C8 -/

/-- C8 (amended).  When no row matches the indicator code with a non-null
value, `prepare_time_series` returns an empty time series; the function
raises nothing (there is no `EmptyInputError` in the code). -/
theorem C8_empty_filter_returns_empty (df : List Observation) (indicator_code : String)
    (h : ∀ o ∈ df, ¬ (o.indicator_code = indicator_code ∧ o.value_numeric.isSome)) :
    prepare_time_series df indicator_code = [] := by
  unfold prepare_time_series
  dsimp only
  have h2 : (df.filter (fun o => o.indicator_code == indicator_code)).filter
      (fun o => o.value_numeric.isSome) = [] := by
    rw [List.filter_eq_nil_iff]
    intro o ho
    have hmem := List.mem_filter.mp ho
    have hcode : o.indicator_code = indicator_code := by simpa using hmem.2
    intro hsome
    exact h o hmem.1 ⟨hcode, by simpa using hsome⟩
  rw [h2]
  rfl

/-- C8 fails as stated: on an observation table with no matching rows the
function returns the empty series as an ordinary value — it does not fail. -/
theorem C8_counterexample :
    prepare_time_series [⟨"OTHER", 0, some 1⟩] "ACC_OWNERSHIP" = [] := by
  decide

/-- Witness for C8 at a concrete non-matching observation table. -/
theorem C8_witness :
    (∀ o ∈ [(⟨"OTHER", 0, some 1⟩ : Observation)],
      ¬ (o.indicator_code = "ACC_OWNERSHIP" ∧ o.value_numeric.isSome)) ∧
    prepare_time_series [(⟨"OTHER", 0, some 1⟩ : Observation)] "ACC_OWNERSHIP" = [] :=
  ⟨by decide, C8_empty_filter_returns_empty _ "ACC_OWNERSHIP" (by decide)⟩

/-! ## Claim C9 -/

/-- C9.  Each event yields one binary column named `event_<name>`, aligned
with the target dates, whose entry is 1 exactly when the date lies in the
inclusive window `[event_date, event_date + lag_months*30 days]` and 0
otherwise; and on the test's concrete data — monthly dates over 2020 with
events at 2021-05-01 and 2023-01-01 and `lag_months = 6` — both columns
are all zero. -/
theorem C9_event_indicator_window :
    (∀ (dates : List ℤ) (evts : List (String × ℤ)) (lag : ℤ) (k j : ℕ),
      k < evts.length → j < dates.length →
      ((create_event_indicators dates evts lag).getD k ("", [])).1
        = "event_" ++ (evts.getD k ("", 0)).1 ∧
      ((create_event_indicators dates evts lag).getD k ("", [])).2.length
        = dates.length ∧
      (((create_event_indicators dates evts lag).getD k ("", [])).2.getD j 2 = 1
        ↔ (evts.getD k ("", 0)).2 ≤ dates.getD j 0 ∧
          dates.getD j 0 ≤ (evts.getD k ("", 0)).2 + lag * 30) ∧
      (((create_event_indicators dates evts lag).getD k ("", [])).2.getD j 2 = 0
        ↔ ¬ ((evts.getD k ("", 0)).2 ≤ dates.getD j 0 ∧
          dates.getD j 0 ≤ (evts.getD k ("", 0)).2 + lag * 30))) ∧
    create_event_indicators exampleDates2020 exampleEvents 6
      = [("event_telebirr", List.replicate 12 0),
         ("event_mpesa", List.replicate 12 0)] := by
  constructor
  · intro dates evts lag k j hk hj
    unfold create_event_indicators
    rw [list_getD_map _ _ k ("", 0) _ hk]
    refine ⟨rfl, by simp, ?_, ?_⟩
    · rw [list_getD_map _ _ j 0 _ hj]
      by_cases hcond : (evts.getD k ("", 0)).2 ≤ dates.getD j 0 ∧
          dates.getD j 0 ≤ (evts.getD k ("", 0)).2 + lag * 30
      · simp [hcond]
      · simp [hcond]
    · rw [list_getD_map _ _ j 0 _ hj]
      by_cases hcond : (evts.getD k ("", 0)).2 ≤ dates.getD j 0 ∧
          dates.getD j 0 ≤ (evts.getD k ("", 0)).2 + lag * 30
      · simp [hcond]
      · simp [hcond]
  · decide

/-- Witness for C9 at the first event and first date of the concrete
example. -/
theorem C9_witness :
    ((0 : ℕ) < exampleEvents.length ∧ (0 : ℕ) < exampleDates2020.length) ∧
    (((create_event_indicators exampleDates2020 exampleEvents 6).getD 0 ("", [])).1
        = "event_" ++ (exampleEvents.getD 0 ("", 0)).1 ∧
      ((create_event_indicators exampleDates2020 exampleEvents 6).getD 0 ("", [])).2.length
        = exampleDates2020.length ∧
      ((((create_event_indicators exampleDates2020 exampleEvents 6).getD 0
            ("", [])).2.getD 0 2 = 1)
        ↔ (exampleEvents.getD 0 ("", 0)).2 ≤ exampleDates2020.getD 0 0 ∧
          exampleDates2020.getD 0 0 ≤ (exampleEvents.getD 0 ("", 0)).2 + 6 * 30) ∧
      ((((create_event_indicators exampleDates2020 exampleEvents 6).getD 0
            ("", [])).2.getD 0 2 = 0)
        ↔ ¬ ((exampleEvents.getD 0 ("", 0)).2 ≤ exampleDates2020.getD 0 0 ∧
          exampleDates2020.getD 0 0 ≤ (exampleEvents.getD 0 ("", 0)).2 + 6 * 30))) :=
  ⟨⟨by decide, by decide⟩,
    C9_event_indicator_window.1 exampleDates2020 exampleEvents 6 0 0
      (by decide) (by decide)⟩
